import Mathlib

/-!
Verification of the host-side WebAssembly external allocator and
diagnostics bridges implemented in `src/index.js`.

The embedding below translates the JavaScript source directly:

* `AllocBlock` is the `AllocBlock` class: `{pointer, size, used}`, with
  `used` initialised to `true` by the constructor.
* The block list held by an `AllocModule` instance (`this.blocks`) is a
  `List AllocBlock`; the in-place mutations of the JavaScript code become
  functional updates that return the new list.
* Thrown JavaScript errors become the `JsError` inductive, one constructor
  per error class of the source, carrying the same constructor arguments.
  Functions that can throw return `Except JsError`.
* Machine numbers crossing the wasm boundary are `u32` values; JavaScript
  arithmetic on them (sums such as `pointer + size`, `Math.ceil` division)
  is exact on IEEE doubles at this magnitude, so they are modelled as `Nat`
  with exact arithmetic.
* Guest linear memory is a `List Nat` of byte values, indexed by address.
-/

namespace WasmAlloc

/-- The `AllocBlock` class: a tracked span of guest address space.
The JavaScript constructor takes `(pointer, size)` and sets `used = true`. -/
structure AllocBlock where
  pointer : Nat
  size : Nat
  used : Bool
deriving DecidableEq, Repr

/-- `AllocBlock.nextPointerWith(pointer, size)`: `pointer + size`. -/
def AllocBlock.nextPointerWith (pointer size : Nat) : Nat :=
  pointer + size

/-- `AllocBlock.prototype.nextPointer()`. -/
def AllocBlock.nextPointer (b : AllocBlock) : Nat :=
  AllocBlock.nextPointerWith b.pointer b.size

/-- The error taxonomy: one kind per error class that the source can
throw, plus `fatal` (`FatalError`) and `guestPanic` (`WasmPanicError`).
`typeError` is the built-in `TypeError` thrown by `newBlock` on a bad
alignment; it is a distinct class from `FatalError`. -/
inductive ErrorKind where
  | typeError
  | freeUnallocated
  | freeAgain
  | freeMismatchedSize
  | reallocFreed
  | reallocUnallocated
  | blockSizeMismatch
  | fatal
  | guestPanic
deriving DecidableEq, Repr

/-- Thrown errors, one constructor per error class of `src/index.js`,
carrying the same fields their constructors store. -/
inductive JsError where
  | typeError (message : String)
  | freeUnalloced (pointer size align : Nat)
  | freeAgain (pointer size align : Nat)
  | freeMismatchedSize (pointer triedSize triedAlign actualSize : Nat)
  | reallocFreed (pointer size align : Nat)
  | reallocUnalloced (pointer size align : Nat)
  | blockSizeMismatch (pointer expectedSize align actualSize : Nat)
  | fatal (message : String)
  | wasmPanic (message file : String) (line column : Nat)
deriving DecidableEq, Repr

/-- Which class (kind) a thrown error belongs to. -/
def JsError.kind : JsError → ErrorKind
  | .typeError _ => .typeError
  | .freeUnalloced _ _ _ => .freeUnallocated
  | .freeAgain _ _ _ => .freeAgain
  | .freeMismatchedSize _ _ _ _ => .freeMismatchedSize
  | .reallocFreed _ _ _ => .reallocFreed
  | .reallocUnalloced _ _ _ => .reallocUnallocated
  | .blockSizeMismatch _ _ _ _ => .blockSizeMismatch
  | .fatal _ => .fatal
  | .wasmPanic _ _ _ _ => .guestPanic

/-- `AllocModule.alignPointer(address, align) = Math.ceil(address / align) * align`.
For natural `address` and `align ≥ 1` in the `u32` range the IEEE-double
computation is exact and equals the natural-number ceiling division
`(address + align - 1) / align` times `align`.  (Every call site is guarded
by the `align < 1` check in `newBlock`, so `align = 0` is unreachable.) -/
def AllocModule.alignPointer (address align : Nat) : Nat :=
  (address + align - 1) / align * align

/-- The scan loop of `AllocModule.newBlock` (`for (let i = 0; ...)`).
`prev` is `blocks[i - 1]` (`none` when `i = 0`); the head of the remaining
list is `blocks[i]` and the head of its tail is `blocks[i + 1]`.  Returns
the updated list together with the chosen (`existingBlock`) block, or
`none` when the loop finishes without reusing a block. -/
def AllocModule.newBlockScan (size align : Nat) :
    Option AllocBlock → List AllocBlock → Option (List AllocBlock × AllocBlock)
  | _, [] => none
  | prev, block :: rest =>
    if block.used then
      -- `if (block.used) { continue; }`
      (AllocModule.newBlockScan size align (some block) rest).map
        (fun p => (block :: p.1, p.2))
    else if size ≤ block.size then
      -- `if (block.size >= size)`
      match prev with
      | none =>
        -- first block in the list: reuse at its existing address
        let b : AllocBlock := { pointer := block.pointer, size := size, used := true }
        some (b :: rest, b)
      | some prevBlock =>
        let alignedPointer := AllocModule.alignPointer prevBlock.nextPointer align
        match rest with
        | nextBlock :: _ =>
          if nextBlock.pointer < AllocBlock.nextPointerWith alignedPointer size then
            -- `if (AllocBlock.nextPointerWith(alignedPointer, size) > nextBlock.pointer) { continue; }`
            (AllocModule.newBlockScan size align (some block) rest).map
              (fun p => (block :: p.1, p.2))
          else
            let b : AllocBlock := { pointer := alignedPointer, size := size, used := true }
            some (b :: rest, b)
        | [] =>
          let b : AllocBlock := { pointer := alignedPointer, size := size, used := true }
          some (b :: rest, b)
    else
      -- free block too small: fall through to the next iteration
      (AllocModule.newBlockScan size align (some block) rest).map
        (fun p => (block :: p.1, p.2))

/-- `AllocModule.newBlock(self, size, align)`: returns the updated block
list and the block whose pointer `alloc` hands out. -/
def AllocModule.newBlock (blocks : List AllocBlock) (size align : Nat) :
    Except JsError (List AllocBlock × AllocBlock) :=
  if align < 1 then
    .error (.typeError "alignment cannot be less than 1")
  else
    match blocks with
    | [] =>
      -- empty list: first ever block starts at `align`
      let block : AllocBlock := { pointer := align, size := size, used := true }
      .ok ([block], block)
    | b :: bs =>
      match AllocModule.newBlockScan size align none (b :: bs) with
      | some (blocks', existingBlock) => .ok (blocks', existingBlock)
      | none =>
        -- no reusable block: append after the last block
        let lastBlock := (b :: bs).getLast (List.cons_ne_nil b bs)
        let pointer := AllocModule.alignPointer lastBlock.nextPointer align
        let existingBlock : AllocBlock := { pointer := pointer, size := size, used := true }
        .ok ((b :: bs) ++ [existingBlock], existingBlock)

/-- `AllocModule.prototype.alloc(size, align)`: `newBlock(this, size, align).pointer`. -/
def AllocModule.alloc (blocks : List AllocBlock) (size align : Nat) :
    Except JsError (List AllocBlock × Nat) :=
  (AllocModule.newBlock blocks size align).map (fun p => (p.1, p.2.pointer))

/-- `AllocModule.prototype.dealloc(pointer, size, align)`: the
`for (const block of this.blocks)` loop, acting on the first block whose
`pointer` matches and throwing `FreeUnallocedError` when none does. -/
def AllocModule.dealloc (blocks : List AllocBlock) (pointer size align : Nat) :
    Except JsError (List AllocBlock) :=
  match blocks with
  | [] => .error (.freeUnalloced pointer size align)
  | block :: rest =>
    if block.pointer = pointer then
      if block.used = false then
        .error (.freeAgain pointer size align)
      else if block.size ≠ size then
        .error (.freeMismatchedSize pointer size align block.size)
      else
        .ok ({ block with used := false } :: rest)
    else
      (AllocModule.dealloc rest pointer size align).map (fun l => block :: l)

/-- Guest linear memory unchanged-by-`realloc` helper (see `realloc`):
models `new Uint8Array(x, offset, length)` where `x` is the
`WebAssembly.Memory` object itself rather than its `buffer`.  The typed
array constructor then takes its object (array-like) overload — a
`WebAssembly.Memory` has no `length` property, so the array-like length is
`0` — and the `offset`/`length` arguments are ignored entirely.  The result
is a fresh, empty byte array with no connection to guest memory. -/
def uint8ArrayOfMemoryObject (offset length : Nat) : List Nat :=
  []

/-- The search loop of `AllocModule.prototype.realloc`: find the first block
whose `pointer` matches, throwing `ReallocFreedError` when it is free and
`BlockSizeMismatchError` when its tracked size differs.  Returns the list
split around the found block (`reallocBlock`), or `none` when the loop
finishes without a match. -/
def AllocModule.reallocScan (pointer size align : Nat) :
    List AllocBlock →
    Except JsError (Option (List AllocBlock × AllocBlock × List AllocBlock))
  | [] => .ok none
  | block :: rest =>
    if block.pointer = pointer then
      if block.used = false then
        .error (.reallocFreed pointer size align)
      else if block.size ≠ size then
        .error (.blockSizeMismatch pointer size align block.size)
      else
        .ok (some ([], block, rest))
    else
      (AllocModule.reallocScan pointer size align rest).map
        (fun r => r.map (fun q => (block :: q.1, q.2.1, q.2.2)))

/-- `AllocModule.prototype.realloc(pointer, size, align, newSize)`.

The `!!! CRITICAL SECTION !!!` of the source is transcribed in its exact
order: the block is marked free FIRST, and only then is `origData`
constructed — and it is constructed as
`new Uint8Array(this.runner.memory(), reallocBlock.pointer, size)`, whose
first argument is the `WebAssembly.Memory` object, not
`this.runner.memory().buffer` (contrast every accessor of the `Runner`
class, which reads `this.memory().buffer`).  As documented at
`uint8ArrayOfMemoryObject`, both `origData` and `newData` are therefore
fresh empty arrays detached from guest memory, `newData.set(origData)`
copies nothing, and guest memory is returned unchanged. -/
def AllocModule.realloc (mem : List Nat) (blocks : List AllocBlock)
    (pointer size align newSize : Nat) :
    Except JsError (List Nat × List AllocBlock × Nat) :=
  if size = newSize then
    .ok (mem, blocks, pointer)
  else
    match AllocModule.reallocScan pointer size align blocks with
    | .error e => .error e
    | .ok none => .error (.reallocUnalloced pointer size align)
    | .ok (some (before, reallocBlock, after)) =>
      -- !!! CRITICAL SECTION !!!
      -- `reallocBlock.used = false;`
      let freed := before ++ { reallocBlock with used := false } :: after
      -- `const origData = new Uint8Array(this.runner.memory(), reallocBlock.pointer, size);`
      let origData := uint8ArrayOfMemoryObject reallocBlock.pointer size
      match AllocModule.newBlock freed newSize align with
      | .error e => .error e
      | .ok (blocks', nb) =>
        -- `const newData = new Uint8Array(this.runner.memory(), newBlock.pointer, newSize);`
        let _newData := uint8ArrayOfMemoryObject nb.pointer newSize
        -- `newData.set(origData);` writes `origData` (empty) into `newData`,
        -- a detached array: guest memory `mem` is untouched.
        let _ := origData
        .ok (mem, blocks', nb.pointer)

/-- The mutable state of a `PanicModule` instance. -/
structure PanicState where
  message : String
  file : Option String
  line : Nat
  column : Nat
deriving DecidableEq, Repr

/-- The `PanicModule` constructor: `message = ''`, `file = undefined`,
`line = 0`, `column = 0`. -/
def PanicModule.init : PanicState :=
  { message := "", file := none, line := 0, column := 0 }

/-- `PanicModule.prototype.panic_ch(ch)`, i.e. `this.message += ch`.
Across the wasm boundary `ch` arrives as a JavaScript number (a `u32`
code point), and `+=` on a string coerces it with `Number::toString`,
which for a nonnegative integer below 2^53 yields its decimal digit
string — the model uses `toString` on `Nat`, which is the same decimal
representation.  Note: the number is NOT converted to the character with
that code point. -/
def PanicModule.panic_ch (s : PanicState) (ch : Nat) : PanicState :=
  { s with message := s.message ++ toString ch }

/-- `PanicModule.prototype.panic_str(pointer, length)`: appends the decoded
text of a guest byte span.  The decoding itself (`Runner.decodeUtf8`) is
lossy UTF-8 over live memory; the model takes the decoded string directly. -/
def PanicModule.panic_str (s : PanicState) (str : String) : PanicState :=
  { s with message := s.message ++ str }

/-- `PanicModule.prototype.panic_put_file(pointer, length)` (decoded text). -/
def PanicModule.panic_put_file (s : PanicState) (file : String) : PanicState :=
  { s with file := some file }

/-- `PanicModule.prototype.panic_put_line_column(line, column)`. -/
def PanicModule.panic_put_line_column (s : PanicState) (line column : Nat) :
    PanicState :=
  { s with line := line, column := column }

/-- `PanicModule.prototype.panic()`: the `WasmPanicError` it throws.
Template literal `` `<no message, ${file}:${line}:${column}>` `` is the
concatenation below. -/
def PanicModule.panic (s : PanicState) : JsError :=
  let line := s.line
  let column := s.column
  let file := match s.file with
    | none => "?"
    | some f => f
  let message :=
    if s.message = "" then
      "<no message, " ++ file ++ ":" ++ toString line ++ ":" ++
        toString column ++ ">"
    else
      s.message
  .wasmPanic message file line column

/-- `DebugModule.prototype.dblog_ch(code)`:
`this.dblog.push(String.fromCodePoint(code))` — the numeric argument is
converted to the single character with that code point and pushed as one
fragment.  (`Char.ofNat` models `String.fromCodePoint` on valid code
points.) -/
def DebugModule.dblog_ch (dblog : List String) (code : Nat) : List String :=
  dblog ++ [String.singleton (Char.ofNat code)]

/-- `DebugModule.prototype.dblog_str(pointer, length)` (decoded text). -/
def DebugModule.dblog_str (dblog : List String) (str : String) : List String :=
  dblog ++ [str]

/-- `DebugModule.prototype.dblog_flush()`: the emitted string
(`this.dblog.join('')`) and the cleared accumulator. -/
def DebugModule.dblog_flush (dblog : List String) : String × List String :=
  (String.join dblog, [])

/-- One guest call into the allocator namespace (for invariant claims
about call sequences). -/
inductive AllocOp where
  | alloc (size align : Nat)
  | dealloc (pointer size align : Nat)
deriving DecidableEq, Repr

/-- Run one allocator call, keeping only the resulting block list. -/
def runOp (blocks : List AllocBlock) : AllocOp → Except JsError (List AllocBlock)
  | .alloc size align => (AllocModule.alloc blocks size align).map Prod.fst
  | .dealloc pointer size align => AllocModule.dealloc blocks pointer size align

/-- Run a sequence of allocator calls; `.ok` exactly when every call in the
sequence is valid (none throws). -/
def runOps (blocks : List AllocBlock) : List AllocOp → Except JsError (List AllocBlock)
  | [] => .ok blocks
  | op :: ops =>
    match runOp blocks op with
    | .error e => .error e
    | .ok blocks' => runOps blocks' ops

/-- Block `a` lies entirely before block `b` in the address space. -/
def AllocBlock.precedes (a b : AllocBlock) : Prop :=
  a.nextPointer ≤ b.pointer

instance : DecidableRel AllocBlock.precedes :=
  fun a b => inferInstanceAs (Decidable (a.nextPointer ≤ b.pointer))

instance : IsTrans AllocBlock AllocBlock.precedes where
  trans a b c hab hbc :=
    le_trans hab (le_trans (Nat.le_add_right b.pointer b.size) hbc)

/-- The address ranges `[pointer, pointer + size)` of two blocks share a
byte. -/
def AllocBlock.overlaps (a b : AllocBlock) : Prop :=
  ∃ x, (a.pointer ≤ x ∧ x < a.pointer + a.size) ∧
    (b.pointer ≤ x ∧ x < b.pointer + b.size)

/-- The structural invariant of the block list: every pointer is nonzero,
and each block ends at or before the next one begins. -/
def BlocksWf (l : List AllocBlock) : Prop :=
  (∀ b ∈ l, 1 ≤ b.pointer) ∧ List.Chain' AllocBlock.precedes l

/-- The scan position of `newBlock`'s loop: the previous block
(`blocks[i - 1]`, when any) followed by the blocks not yet scanned. -/
def withPrev : Option AllocBlock → List AllocBlock → List AllocBlock
  | none, l => l
  | some p, l => p :: l

theorem le_alignPointer (a al : Nat) (h : 1 ≤ al) :
    a ≤ AllocModule.alignPointer a al := by
  have hd := Nat.div_add_mod (a + al - 1) al
  have hm : (a + al - 1) % al < al := Nat.mod_lt _ h
  show a ≤ (a + al - 1) / al * al
  have hc : (a + al - 1) / al * al = al * ((a + al - 1) / al) := Nat.mul_comm _ _
  rw [hc]
  omega

/-- C4: `alloc` on an empty block list with alignment `A ≥ 1` creates the
first block at address `A` marked used, and returns exactly `A`, which is
nonzero. -/
theorem C4_alloc_empty (size align : Nat) (h : 1 ≤ align) :
    AllocModule.alloc [] size align =
      .ok ([{ pointer := align, size := size, used := true }], align) ∧
    align ≠ 0 := by
  have hlt : ¬ align < 1 := by omega
  refine ⟨?_, by omega⟩
  simp [AllocModule.alloc, AllocModule.newBlock, hlt, Except.map]

/-- Witness for C4 at `size = 8`, `align = 4`. -/
theorem C4_alloc_empty_witness :
    AllocModule.alloc [] 8 4 =
      .ok ([{ pointer := 4, size := 8, used := true }], 4) ∧
    (4 : Nat) ≠ 0 :=
  C4_alloc_empty 8 4 (by decide)

/-- C5 (counterexample): `alloc` with `align = 0` on the empty list raises
the built-in `TypeError`, whose kind is not `Fatal`. -/
theorem C5_counterexample :
    AllocModule.newBlock [] 8 0 =
      .error (.typeError "alignment cannot be less than 1") ∧
    JsError.kind (.typeError "alignment cannot be less than 1") ≠ ErrorKind.fatal := by
  exact ⟨rfl, by decide⟩

/-- C5 (amended): every call with `align < 1` raises the configuration
fault `TypeError("alignment cannot be less than 1")` — whose kind is
`typeError`, not the `Fatal` kind used for missing guest exports —
regardless of the block-list state. -/
theorem C5_align_type_fault (blocks : List AllocBlock) (size align : Nat)
    (h : align < 1) :
    AllocModule.newBlock blocks size align =
      .error (.typeError "alignment cannot be less than 1") ∧
    JsError.kind (.typeError "alignment cannot be less than 1") = .typeError ∧
    ErrorKind.typeError ≠ ErrorKind.fatal := by
  refine ⟨?_, rfl, by decide⟩
  unfold AllocModule.newBlock
  rw [if_pos h]

/-- Witness for C5 (amended) at `align = 0` on a nonempty list. -/
theorem C5_align_type_fault_witness :
    AllocModule.newBlock [{ pointer := 4, size := 8, used := true }] 8 0 =
      .error (.typeError "alignment cannot be less than 1") ∧
    JsError.kind (.typeError "alignment cannot be less than 1") = .typeError ∧
    ErrorKind.typeError ≠ ErrorKind.fatal :=
  C5_align_type_fault [{ pointer := 4, size := 8, used := true }] 8 0 (by decide)

/-- C7: on a live block of tracked size `n` at `p`, `realloc(p, n, a, n)`
returns `p`, moves no data, and leaves memory and every block unchanged. -/
theorem C7_realloc_same_size_noop (mem : List Nat) (blocks : List AllocBlock)
    (p n a : Nat)
    (h : ∃ b ∈ blocks, b.pointer = p ∧ b.used = true ∧ b.size = n) :
    AllocModule.realloc mem blocks p n a n = .ok (mem, blocks, p) := by
  unfold AllocModule.realloc
  rw [if_pos rfl]

/-- Witness for C7 on the live block `{4, 8, used}`. -/
theorem C7_realloc_same_size_noop_witness :
    AllocModule.realloc [9, 9] [{ pointer := 4, size := 8, used := true }] 4 8 4 8 =
      .ok ([9, 9], [{ pointer := 4, size := 8, used := true }], 4) :=
  C7_realloc_same_size_noop [9, 9] [{ pointer := 4, size := 8, used := true }] 4 8 4
    (by decide)

/-- C10: `realloc(p, n, a, n)` returns `p` for every memory, block list,
`p`, `n` and `a` — the block list is never consulted, so no
`ReallocUnallocated` or `ReallocFreed` error can be raised in this case. -/
theorem C10_realloc_same_size_unchecked (mem : List Nat)
    (blocks : List AllocBlock) (p n a : Nat) :
    AllocModule.realloc mem blocks p n a n = .ok (mem, blocks, p) ∧
    ∀ e : JsError, AllocModule.realloc mem blocks p n a n ≠ .error e := by
  have hok : AllocModule.realloc mem blocks p n a n = .ok (mem, blocks, p) := by
    unfold AllocModule.realloc
    rw [if_pos rfl]
  exact ⟨hok, fun e he => by rw [hok] at he; cases he⟩

/-- C8: with no message fragment ever sent, `panic()` raises the
placeholder message; on the pristine bridge it is exactly
`<no message, ?:0:0>` with file `?`, line `0`, column `0`. -/
theorem C8_panic_placeholder :
    PanicModule.panic PanicModule.init =
      .wasmPanic "<no message, ?:0:0>" "?" 0 0 ∧
    ∀ s : PanicState, s.message = "" →
      PanicModule.panic s =
        .wasmPanic
          ("<no message, " ++ s.file.getD "?" ++ ":" ++ toString s.line ++
            ":" ++ toString s.column ++ ">")
          (s.file.getD "?") s.line s.column := by
  refine ⟨by decide, ?_⟩
  intro s hs
  cases hf : s.file <;> simp [PanicModule.panic, hs, hf]

/-- Witness for C8's general placeholder form at file `lib.rs`, line 9,
column 7. -/
theorem C8_panic_placeholder_witness :
    PanicModule.panic
        { message := "", file := some "lib.rs", line := 9, column := 7 } =
      .wasmPanic "<no message, lib.rs:9:7>" "lib.rs" 9 7 := by
  have h := C8_panic_placeholder.2
    { message := "", file := some "lib.rs", line := 9, column := 7 } rfl
  exact h.trans (by decide)

/-- C9 (as implemented): `panic_ch(65)` appends the two-character decimal
string `"65"` — the numeric argument is string-coerced, not converted to
the character `A` with code point 65 — while `dblog_ch(65)` appends the
single character `A`. -/
theorem C9_panic_ch_appends_decimal :
    (PanicModule.panic_ch PanicModule.init 65).message = "65" ∧
    (PanicModule.panic_ch PanicModule.init 65).message.length = 2 ∧
    (PanicModule.panic_ch PanicModule.init 65).message ≠
      String.singleton (Char.ofNat 65) ∧
    DebugModule.dblog_ch [] 65 = [String.singleton (Char.ofNat 65)] := by
  refine ⟨by decide, by decide, by decide, by decide⟩

/-- C1 (as implemented): growing the last used block `{3, 2}` to size 4
relocates it to address 5, but none of its bytes reach the new address:
guest memory is returned unchanged, so the byte at the new address (0)
differs from the old block's first byte (7).  The snapshot the spec
requires before the free is never taken: the block is freed first and the
`Uint8Array` views are built from the `WebAssembly.Memory` object instead
of its buffer, so nothing is copied. -/
theorem C1_realloc_loses_data :
    AllocModule.realloc [0, 0, 0, 7, 8, 0, 0, 0, 0]
        [{ pointer := 1, size := 2, used := true },
         { pointer := 3, size := 2, used := true }] 3 2 1 4 =
      .ok ([0, 0, 0, 7, 8, 0, 0, 0, 0],
        [{ pointer := 1, size := 2, used := true },
         { pointer := 3, size := 2, used := false },
         { pointer := 5, size := 4, used := true }], 5) ∧
    List.getD [0, 0, 0, 7, 8, 0, 0, 0, 0] 5 0 ≠
      List.getD [0, 0, 0, 7, 8, 0, 0, 0, 0] 3 0 := by
  refine ⟨by rfl, by decide⟩

theorem dealloc_not_found (l : List AllocBlock) (p sz al : Nat)
    (h : ∀ b ∈ l, b.pointer ≠ p) :
    AllocModule.dealloc l p sz al = .error (.freeUnalloced p sz al) := by
  induction l with
  | nil => rfl
  | cons b rest ih =>
    simp only [AllocModule.dealloc]
    rw [if_neg (h b (List.mem_cons_self b rest)),
      ih (fun c hc => h c (List.mem_cons_of_mem b hc))]
    rfl

theorem dealloc_skip (l1 rest : List AllocBlock) (p sz al : Nat)
    (h : ∀ b ∈ l1, b.pointer ≠ p) :
    AllocModule.dealloc (l1 ++ rest) p sz al =
      (AllocModule.dealloc rest p sz al).map (fun l => l1 ++ l) := by
  induction l1 with
  | nil =>
    cases h' : AllocModule.dealloc rest p sz al <;> simp [Except.map, h']
  | cons b l1' ih =>
    simp only [List.cons_append, AllocModule.dealloc, List.append_eq]
    rw [if_neg (h b (List.mem_cons_self b l1')),
      ih (fun c hc => h c (List.mem_cons_of_mem b hc))]
    cases h' : AllocModule.dealloc rest p sz al <;> simp [Except.map, h']

/-- C6: `dealloc(address, size, align)` raises `FreeUnallocated` when no
tracked block has a matching address, `FreeAgain` when the matching block
is already free, `FreeMismatchedSize` (carrying the tracked size) when the
matching block's tracked size differs from the given size, and otherwise
marks exactly the matching block free. -/
theorem C6_dealloc_contract (l1 l2 : List AllocBlock) (m : AllocBlock)
    (p sz al : Nat) (hl1 : ∀ b ∈ l1, b.pointer ≠ p) (hm : m.pointer = p) :
    (∀ l : List AllocBlock, (∀ b ∈ l, b.pointer ≠ p) →
      AllocModule.dealloc l p sz al = .error (.freeUnalloced p sz al)) ∧
    (m.used = false →
      AllocModule.dealloc (l1 ++ m :: l2) p sz al =
        .error (.freeAgain p sz al)) ∧
    (m.used = true → m.size ≠ sz →
      AllocModule.dealloc (l1 ++ m :: l2) p sz al =
        .error (.freeMismatchedSize p sz al m.size)) ∧
    (m.used = true → m.size = sz →
      AllocModule.dealloc (l1 ++ m :: l2) p sz al =
        .ok (l1 ++ { m with used := false } :: l2)) := by
  have hstep : AllocModule.dealloc (m :: l2) p sz al =
      if m.used = false then .error (.freeAgain p sz al)
      else if m.size ≠ sz then .error (.freeMismatchedSize p sz al m.size)
      else .ok ({ m with used := false } :: l2) := by
    simp only [AllocModule.dealloc]
    rw [if_pos hm]
  refine ⟨fun l hl => dealloc_not_found l p sz al hl, ?_, ?_, ?_⟩
  · intro hused
    rw [dealloc_skip l1 (m :: l2) p sz al hl1, hstep, if_pos hused]
    rfl
  · intro hused hsz
    rw [dealloc_skip l1 (m :: l2) p sz al hl1, hstep,
      if_neg (by simp [hused]), if_pos hsz]
    rfl
  · intro hused hsz
    rw [dealloc_skip l1 (m :: l2) p sz al hl1, hstep,
      if_neg (by simp [hused]), if_neg (not_not_intro hsz)]
    rfl

/-- Witness for C6: freeing the live block `{4, 8, used}` marks it free. -/
theorem C6_dealloc_contract_witness :
    AllocModule.dealloc [{ pointer := 4, size := 8, used := true }] 4 8 4 =
      .ok [{ pointer := 4, size := 8, used := false }] :=
  (C6_dealloc_contract [] [] { pointer := 4, size := 8, used := true } 4 8 4
    (by simp) rfl).2.2.2 rfl rfl

theorem newBlockScan_skip (size align : Nat) (l1 : List AllocBlock) :
    ∀ (tail : List AllocBlock) (prev : Option AllocBlock) (h1 : l1 ≠ []),
      (∀ c ∈ l1, c.used = true ∨ c.size < size) →
      AllocModule.newBlockScan size align prev (l1 ++ tail) =
        (AllocModule.newBlockScan size align (some (l1.getLast h1)) tail).map
          (fun p => (l1 ++ p.1, p.2)) := by
  induction l1 with
  | nil => intro tail prev h1 _; exact absurd rfl h1
  | cons c l1' ih =>
    intro tail prev h1 hskip
    have hstep : AllocModule.newBlockScan size align prev ((c :: l1') ++ tail) =
        (AllocModule.newBlockScan size align (some c) (l1' ++ tail)).map
          (fun p => (c :: p.1, p.2)) := by
      rcases hskip c (List.mem_cons_self c l1') with hused | hsmall
      · simp only [List.cons_append, AllocModule.newBlockScan]
        rw [if_pos hused]
        rfl
      · cases hu : c.used with
        | true =>
          simp only [List.cons_append, AllocModule.newBlockScan]
          rw [if_pos hu]
          rfl
        | false =>
          simp only [List.cons_append, AllocModule.newBlockScan]
          rw [if_neg (by simp [hu]), if_neg (Nat.not_le.mpr hsmall)]
          rfl
    by_cases hne : l1' = []
    · subst hne
      simpa using hstep
    · rw [hstep, ih tail (some c) hne
        (fun x hx => hskip x (List.mem_cons_of_mem c hx))]
      rw [List.getLast_cons hne]
      cases AllocModule.newBlockScan size align (some (l1'.getLast hne)) tail <;>
        simp

theorem newBlock_of_scan (blocks : List AllocBlock) (size align : Nat)
    (l' : List AllocBlock) (blk : AllocBlock) (hne : blocks ≠ [])
    (hal : 1 ≤ align)
    (h : AllocModule.newBlockScan size align none blocks = some (l', blk)) :
    AllocModule.newBlock blocks size align = .ok (l', blk) := by
  match blocks with
  | c :: bs =>
    simp only [AllocModule.newBlock]
    rw [if_neg (by omega)]
    simp only [h]

/-- C3 (counterexample): with blocks `{4,4,used}, {8,8,free}, {16,4,used}`
and `alloc(8, 4)`, the candidate address 8 satisfies
`candidate + size = 16`, exactly reaching the following block's start —
the claim says such a candidate is rejected, but the code accepts it,
overwriting the free block in place and returning 8. -/
theorem C3_reach_is_accepted :
    AllocModule.alignPointer
        (AllocBlock.nextPointer { pointer := 4, size := 4, used := true }) 4 + 8 =
      AllocBlock.pointer { pointer := 16, size := 4, used := true } ∧
    AllocModule.newBlock
        [{ pointer := 4, size := 4, used := true },
         { pointer := 8, size := 8, used := false },
         { pointer := 16, size := 4, used := true }] 8 4 =
      .ok ([{ pointer := 4, size := 4, used := true },
            { pointer := 8, size := 8, used := true },
            { pointer := 16, size := 4, used := true }],
           { pointer := 8, size := 8, used := true }) := by
  refine ⟨by decide, by rfl⟩

/-- C3 (amended): during the first-fit scan, when the first reusable free
block `b` (free, `size ≤ b.size`) is not the first block in the list (all
blocks before it being used or too small), the candidate address is the
previous block's end address aligned up to `align`.  When no following
block starts strictly before `candidate + size`, the block's address and
size are overwritten in place, it is marked used, and the candidate is
returned; when a following block exists with `candidate + size` strictly
passing its start, the candidate is rejected and the scan continues past
`b`.  (Exactly reaching the following block's start is accepted.) -/
theorem C3_scan_step (l1 rest : List AllocBlock) (b : AllocBlock)
    (size align : Nat) (h1 : l1 ≠ []) (hal : 1 ≤ align)
    (hskip : ∀ c ∈ l1, c.used = true ∨ c.size < size)
    (hfree : b.used = false) (hsize : size ≤ b.size) :
    ((∀ nb ∈ rest.head?,
        AllocModule.alignPointer (l1.getLast h1).nextPointer align + size ≤
          nb.pointer) →
      AllocModule.newBlock (l1 ++ b :: rest) size align =
        .ok (l1 ++
          { pointer := AllocModule.alignPointer (l1.getLast h1).nextPointer align,
            size := size, used := true } :: rest,
          { pointer := AllocModule.alignPointer (l1.getLast h1).nextPointer align,
            size := size, used := true })) ∧
    ((∃ nb ∈ rest.head?,
        nb.pointer <
          AllocModule.alignPointer (l1.getLast h1).nextPointer align + size) →
      AllocModule.newBlockScan size align none (l1 ++ b :: rest) =
        (AllocModule.newBlockScan size align (some b) rest).map
          (fun p => (l1 ++ b :: p.1, p.2))) := by
  have hscan := newBlockScan_skip size align l1 (b :: rest) none h1 hskip
  constructor
  · intro hfit
    have hb : AllocModule.newBlockScan size align (some (l1.getLast h1))
        (b :: rest) =
        some ({ pointer := AllocModule.alignPointer (l1.getLast h1).nextPointer align,
                size := size, used := true } :: rest,
              { pointer := AllocModule.alignPointer (l1.getLast h1).nextPointer align,
                size := size, used := true }) := by
      cases rest with
      | nil =>
        simp only [AllocModule.newBlockScan]
        rw [if_neg (by simp [hfree]), if_pos hsize]
      | cons nb rest' =>
        have hle := hfit nb rfl
        simp only [AllocModule.newBlockScan, AllocBlock.nextPointerWith]
        rw [if_neg (by simp [hfree]), if_pos hsize,
          if_neg (Nat.not_lt.mpr hle)]
    refine newBlock_of_scan (l1 ++ b :: rest) size align _ _ (by simp [h1]) hal ?_
    rw [hscan, hb]
    rfl
  · intro hreject
    obtain ⟨nb, hnb, hlt⟩ := hreject
    cases rest with
    | nil => cases hnb
    | cons nb' rest' =>
      have hnb' : nb' = nb := by
        rw [Option.mem_def] at hnb
        exact (Option.some_injective _ hnb.symm).symm
      subst hnb'
      have hb : AllocModule.newBlockScan size align (some (l1.getLast h1))
          (b :: nb' :: rest') =
          (AllocModule.newBlockScan size align (some b) (nb' :: rest')).map
            (fun p => (b :: p.1, p.2)) := by
        simp only [AllocModule.newBlockScan, AllocBlock.nextPointerWith]
        rw [if_neg (by simp [hfree]), if_pos hsize, if_pos hlt]
      rw [hscan, hb]
      cases AllocModule.newBlockScan size align (some b) (nb' :: rest') <;> simp

theorem scan_used (size align : Nat) (prev : Option AllocBlock)
    (b : AllocBlock) (rest : List AllocBlock) (hu : b.used = true) :
    AllocModule.newBlockScan size align prev (b :: rest) =
      (AllocModule.newBlockScan size align (some b) rest).map
        (fun p => (b :: p.1, p.2)) := by
  simp only [AllocModule.newBlockScan]
  rw [if_pos hu]

theorem scan_small (size align : Nat) (prev : Option AllocBlock)
    (b : AllocBlock) (rest : List AllocBlock) (hu : b.used = false)
    (hsz : b.size < size) :
    AllocModule.newBlockScan size align prev (b :: rest) =
      (AllocModule.newBlockScan size align (some b) rest).map
        (fun p => (b :: p.1, p.2)) := by
  simp only [AllocModule.newBlockScan]
  rw [if_neg (by simp [hu]), if_neg (Nat.not_le.mpr hsz)]

theorem scan_first_fit (size align : Nat) (b : AllocBlock)
    (rest : List AllocBlock) (hu : b.used = false) (hsz : size ≤ b.size) :
    AllocModule.newBlockScan size align none (b :: rest) =
      some ({ pointer := b.pointer, size := size, used := true } :: rest,
            { pointer := b.pointer, size := size, used := true }) := by
  simp only [AllocModule.newBlockScan]
  rw [if_neg (by simp [hu]), if_pos hsz]

theorem scan_fit (size align : Nat) (pb b : AllocBlock)
    (rest : List AllocBlock) (hu : b.used = false) (hsz : size ≤ b.size)
    (hfit : ∀ nb ∈ rest.head?,
      AllocModule.alignPointer pb.nextPointer align + size ≤ nb.pointer) :
    AllocModule.newBlockScan size align (some pb) (b :: rest) =
      some ({ pointer := AllocModule.alignPointer pb.nextPointer align,
              size := size, used := true } :: rest,
            { pointer := AllocModule.alignPointer pb.nextPointer align,
              size := size, used := true }) := by
  cases rest with
  | nil =>
    simp only [AllocModule.newBlockScan]
    rw [if_neg (by simp [hu]), if_pos hsz]
  | cons nb rest2 =>
    simp only [AllocModule.newBlockScan, AllocBlock.nextPointerWith]
    rw [if_neg (by simp [hu]), if_pos hsz,
      if_neg (Nat.not_lt.mpr (hfit nb rfl))]

theorem scan_reject (size align : Nat) (pb b nb : AllocBlock)
    (rest : List AllocBlock) (hu : b.used = false) (hsz : size ≤ b.size)
    (hrej : nb.pointer < AllocModule.alignPointer pb.nextPointer align + size) :
    AllocModule.newBlockScan size align (some pb) (b :: nb :: rest) =
      (AllocModule.newBlockScan size align (some b) (nb :: rest)).map
        (fun p => (b :: p.1, p.2)) := by
  simp only [AllocModule.newBlockScan, AllocBlock.nextPointerWith]
  rw [if_neg (by simp [hu]), if_pos hsz, if_pos hrej]

theorem withPrev_chain_iff (prev : Option AllocBlock) (b : AllocBlock)
    (l : List AllocBlock) :
    List.Chain' AllocBlock.precedes (withPrev prev (b :: l)) ↔
      (∀ q, prev = some q → q.precedes b) ∧
        List.Chain' AllocBlock.precedes (b :: l) := by
  cases prev with
  | none =>
    simp only [withPrev]
    exact ⟨fun h => ⟨fun q hq => Option.noConfusion hq, h⟩, fun h => h.2⟩
  | some q =>
    show List.Chain' _ (q :: b :: l) ↔ _
    rw [List.chain'_cons]
    constructor
    · rintro ⟨h1, h2⟩
      refine ⟨fun q' hq => ?_, h2⟩
      injection hq with hq'
      exact hq' ▸ h1
    · rintro ⟨h1, h2⟩
      exact ⟨h1 q rfl, h2⟩

theorem withPrev_mem_iff (prev : Option AllocBlock) (l : List AllocBlock)
    (x : AllocBlock) :
    x ∈ withPrev prev l ↔ (prev = some x ∨ x ∈ l) := by
  cases prev with
  | none => simp [withPrev]
  | some q =>
    show x ∈ q :: l ↔ _
    rw [List.mem_cons]
    constructor
    · rintro (rfl | hx)
      · exact Or.inl rfl
      · exact Or.inr hx
    · rintro (hq | hx)
      · injection hq with hq'
        exact Or.inl hq'.symm
      · exact Or.inr hx

/-- The scan loop preserves the structural invariant: starting from a
well-chained suffix (with its optional predecessor), a successful reuse
yields a list of the same length that is still chained, with all pointers
nonzero, and hands back a block with nonzero pointer. -/
theorem newBlockScan_wf (size align : Nat) (hal : 1 ≤ align) :
    ∀ (l : List AllocBlock) (prev : Option AllocBlock)
      (l' : List AllocBlock) (blk : AllocBlock),
      AllocModule.newBlockScan size align prev l = some (l', blk) →
      List.Chain' AllocBlock.precedes (withPrev prev l) →
      (∀ b ∈ withPrev prev l, 1 ≤ b.pointer) →
      List.Chain' AllocBlock.precedes (withPrev prev l') ∧
      (∀ b ∈ withPrev prev l', 1 ≤ b.pointer) ∧
      l'.length = l.length ∧ 1 ≤ blk.pointer := by
  intro l
  induction l with
  | nil => intro prev l' blk h _ _; cases h
  | cons b rest ih =>
    intro prev l' blk h hchain hptr
    have hchain_tail : List.Chain' AllocBlock.precedes (b :: rest) :=
      ((withPrev_chain_iff prev b rest).mp hchain).2
    have hprev_b : ∀ q, prev = some q → q.precedes b :=
      ((withPrev_chain_iff prev b rest).mp hchain).1
    have hptr_tail : ∀ x ∈ b :: rest, 1 ≤ x.pointer := fun x hx =>
      hptr x ((withPrev_mem_iff prev (b :: rest) x).mpr (Or.inr hx))
    have hcont : (AllocModule.newBlockScan size align (some b) rest).map
        (fun p => (b :: p.1, p.2)) = some (l', blk) →
        List.Chain' AllocBlock.precedes (withPrev prev l') ∧
        (∀ x ∈ withPrev prev l', 1 ≤ x.pointer) ∧
        l'.length = (b :: rest).length ∧ 1 ≤ blk.pointer := by
      intro hm
      cases hs : AllocModule.newBlockScan size align (some b) rest with
      | none => rw [hs] at hm; cases hm
      | some pr =>
        obtain ⟨pr1, pr2⟩ := pr
        rw [hs] at hm
        simp only [Option.map_some'] at hm
        injection hm with hm'
        injection hm' with hm1 hm2
        subst hm1
        subst hm2
        obtain ⟨ih1, ih2, ih3, ih4⟩ := ih (some b) pr1 pr2 hs hchain_tail hptr_tail
        refine ⟨?_, ?_, by simp [ih3], ih4⟩
        · exact (withPrev_chain_iff prev b pr1).mpr ⟨hprev_b, ih1⟩
        · intro x hx
          rcases (withPrev_mem_iff prev (b :: pr1) x).mp hx with hpx | hx'
          · exact hptr x ((withPrev_mem_iff prev (b :: rest) x).mpr (Or.inl hpx))
          · exact ih2 x hx'
    by_cases hu : b.used = true
    · rw [scan_used size align prev b rest hu] at h
      exact hcont h
    · have hu' : b.used = false := by
        cases hb : b.used
        · rfl
        · exact absurd hb hu
      by_cases hsz : size ≤ b.size
      · cases prev with
        | none =>
          rw [scan_first_fit size align b rest hu' hsz] at h
          injection h with h'
          injection h' with h1 h2
          subst h1
          subst h2
          have hhead := (List.chain'_cons'.mp hchain_tail).1
          have htail := (List.chain'_cons'.mp hchain_tail).2
          refine ⟨?_, ?_, by simp, ?_⟩
          · refine List.chain'_cons'.mpr ⟨?_, htail⟩
            intro y hy
            have h2 : b.pointer + b.size ≤ y.pointer := hhead y hy
            show b.pointer + size ≤ y.pointer
            omega
          · intro x hx
            rcases List.mem_cons.mp hx with rfl | hx'
            · exact hptr_tail b (List.mem_cons_self b rest)
            · exact hptr_tail x (List.mem_cons_of_mem b hx')
          · exact hptr_tail b (List.mem_cons_self b rest)
        | some pb =>
          have hpb1 : 1 ≤ pb.pointer :=
            hptr pb ((withPrev_mem_iff (some pb) (b :: rest) pb).mpr (Or.inl rfl))
          have halign : pb.nextPointer ≤
              AllocModule.alignPointer pb.nextPointer align :=
            le_alignPointer pb.nextPointer align hal
          have hnp : pb.nextPointer = pb.pointer + pb.size := rfl
          have haligned1 : 1 ≤ AllocModule.alignPointer pb.nextPointer align := by
            omega
          by_cases hfit : ∀ nb ∈ rest.head?,
              AllocModule.alignPointer pb.nextPointer align + size ≤ nb.pointer
          · rw [scan_fit size align pb b rest hu' hsz hfit] at h
            injection h with h'
            injection h' with h1 h2
            subst h1
            subst h2
            have htail := (List.chain'_cons'.mp hchain_tail).2
            refine ⟨?_, ?_, by simp, haligned1⟩
            · show List.Chain' AllocBlock.precedes (pb :: _ :: rest)
              refine List.chain'_cons.mpr ⟨halign, ?_⟩
              refine List.chain'_cons'.mpr ⟨?_, htail⟩
              intro y hy
              exact hfit y hy
            · intro x hx
              rcases (withPrev_mem_iff (some pb) _ x).mp hx with hpx | hx'
              · injection hpx with hpx'
                exact hpx' ▸ hpb1
              · rcases List.mem_cons.mp hx' with rfl | hx''
                · exact haligned1
                · exact hptr_tail x (List.mem_cons_of_mem b hx'')
          · push_neg at hfit
            obtain ⟨nb, hnb, hlt⟩ := hfit
            cases rest with
            | nil => cases hnb
            | cons nb2 rest2 =>
              have hnb2 : nb2 = nb := by
                rw [Option.mem_def] at hnb
                injection hnb with hnb'
              subst hnb2
              rw [scan_reject size align pb b nb2 rest2 hu' hsz hlt] at h
              exact hcont h
      · have hsz' : b.size < size := Nat.not_le.mp hsz
        rw [scan_small size align prev b rest hu' hsz'] at h
        exact hcont h

/-- Witness for C3's accepting branch: blocks
`{4,4,used}, {8,8,free}, {20,4,used}` and `alloc(8,4)`: candidate 8,
`8 + 8 = 16 ≤ 20`, so the free block is overwritten in place at 8. -/
theorem C3_scan_step_witness :
    AllocModule.newBlock
        [{ pointer := 4, size := 4, used := true },
         { pointer := 8, size := 8, used := false },
         { pointer := 20, size := 4, used := true }] 8 4 =
      .ok ([{ pointer := 4, size := 4, used := true },
            { pointer := 8, size := 8, used := true },
            { pointer := 20, size := 4, used := true }],
           { pointer := 8, size := 8, used := true }) := by
  have h := (C3_scan_step [{ pointer := 4, size := 4, used := true }]
    [{ pointer := 20, size := 4, used := true }]
    { pointer := 8, size := 8, used := false } 8 4
    (by simp) (by decide) (by decide) rfl (by decide)).1
    (by intro nb hnb
        rw [Option.mem_def] at hnb
        injection hnb with h2
        rw [← h2]
        decide)
  exact h

/-- `newBlock` preserves the block-list invariant, never shrinks the list,
and hands back a block with nonzero pointer. -/
theorem newBlock_wf (blocks : List AllocBlock) (size align : Nat)
    (l' : List AllocBlock) (blk : AllocBlock)
    (h : AllocModule.newBlock blocks size align = .ok (l', blk))
    (hwf : BlocksWf blocks) :
    BlocksWf l' ∧ blocks.length ≤ l'.length ∧ 1 ≤ blk.pointer := by
  cases blocks with
  | nil =>
    simp only [AllocModule.newBlock] at h
    by_cases hal : align < 1
    · rw [if_pos hal] at h
      cases h
    · rw [if_neg hal] at h
      injection h with h'
      injection h' with h1 h2
      subst h1
      subst h2
      refine ⟨⟨?_, by simp⟩, by simp, ?_⟩
      · intro x hx
        rcases List.mem_singleton.mp hx with rfl
        show 1 ≤ align
        omega
      · show 1 ≤ align
        omega
  | cons c bs =>
    simp only [AllocModule.newBlock] at h
    by_cases hal : align < 1
    · rw [if_pos hal] at h
      cases h
    · rw [if_neg hal] at h
      have hal' : 1 ≤ align := by omega
      cases hs : AllocModule.newBlockScan size align none (c :: bs) with
      | some pr =>
        obtain ⟨pr1, pr2⟩ := pr
        rw [hs] at h
        injection h with h'
        injection h' with h1 h2
        subst h1
        subst h2
        obtain ⟨w1, w2, w3, w4⟩ :=
          newBlockScan_wf size align hal' (c :: bs) none pr1 pr2 hs hwf.2 hwf.1
        exact ⟨⟨w2, w1⟩, le_of_eq w3.symm, w4⟩
      | none =>
        rw [hs] at h
        injection h with h'
        injection h' with h1 h2
        subst h1
        subst h2
        have hpb := (c :: bs).getLast_mem (List.cons_ne_nil c bs)
        have hpb1 : 1 ≤ ((c :: bs).getLast (List.cons_ne_nil c bs)).pointer :=
          hwf.1 _ hpb
        have halign := le_alignPointer
          ((c :: bs).getLast (List.cons_ne_nil c bs)).nextPointer align hal'
        have hnp : ((c :: bs).getLast (List.cons_ne_nil c bs)).nextPointer =
            ((c :: bs).getLast (List.cons_ne_nil c bs)).pointer +
              ((c :: bs).getLast (List.cons_ne_nil c bs)).size := rfl
        have haligned1 : 1 ≤ AllocModule.alignPointer
            ((c :: bs).getLast (List.cons_ne_nil c bs)).nextPointer align := by
          omega
        refine ⟨⟨?_, ?_⟩, by simp, haligned1⟩
        · intro x hx
          rcases List.mem_append.mp hx with hx' | hx'
          · exact hwf.1 x hx'
          · rcases List.mem_singleton.mp hx' with rfl
            exact haligned1
        · refine List.Chain'.append hwf.2 (List.chain'_singleton _) ?_
          intro x hx y hy
          rw [List.getLast?_eq_getLast (c :: bs) (List.cons_ne_nil c bs),
            Option.mem_def] at hx
          injection hx with hx'
          rw [Option.mem_def] at hy
          injection hy with hy'
          subst hx'
          rw [← hy']
          exact halign

/-- `dealloc` returns a list of the same length, with the same head
pointer and size, and preserves the block-list invariant (it only clears
one `used` flag). -/
theorem dealloc_wf (blocks : List AllocBlock) (p sz al : Nat) :
    ∀ l', AllocModule.dealloc blocks p sz al = .ok l' →
      l'.length = blocks.length ∧
      l'.head?.map (fun b => (b.pointer, b.size)) =
        blocks.head?.map (fun b => (b.pointer, b.size)) ∧
      (BlocksWf blocks → BlocksWf l') := by
  induction blocks with
  | nil => intro l' h; cases h
  | cons b rest ih =>
    intro l' h
    simp only [AllocModule.dealloc] at h
    by_cases hp : b.pointer = p
    · rw [if_pos hp] at h
      by_cases hu : b.used = false
      · rw [if_pos hu] at h
        cases h
      · rw [if_neg hu] at h
        by_cases hsz : b.size ≠ sz
        · rw [if_pos hsz] at h
          cases h
        · rw [if_neg hsz] at h
          injection h with h'
          subst h'
          refine ⟨rfl, rfl, ?_⟩
          rintro ⟨hptr, hchain⟩
          refine ⟨?_, ?_⟩
          · intro x hx
            rcases List.mem_cons.mp hx with rfl | hx'
            · exact hptr b (List.mem_cons_self b rest)
            · exact hptr x (List.mem_cons_of_mem b hx')
          · rw [List.chain'_cons'] at hchain ⊢
            exact ⟨fun y hy => hchain.1 y hy, hchain.2⟩
    · rw [if_neg hp] at h
      cases hd : AllocModule.dealloc rest p sz al with
      | error e =>
        rw [hd] at h
        cases h
      | ok r =>
        rw [hd] at h
        injection h with h'
        subst h'
        obtain ⟨ihl, ihh, ihwf⟩ := ih r hd
        refine ⟨by simp [ihl], rfl, ?_⟩
        rintro ⟨hptr, hchain⟩
        have hwfr := ihwf ⟨fun x hx => hptr x (List.mem_cons_of_mem b hx),
          (List.chain'_cons'.mp hchain).2⟩
        refine ⟨?_, ?_⟩
        · intro x hx
          rcases List.mem_cons.mp hx with h1 | hx'
          · rw [h1]
            exact hptr b (List.mem_cons_self b rest)
          · exact hwfr.1 x hx'
        · rw [List.chain'_cons']
          refine ⟨?_, hwfr.2⟩
          intro y hy
          have hrel := (List.chain'_cons'.mp hchain).1
          rw [Option.mem_def] at hy
          rw [hy] at ihh
          cases hrh : rest.head? with
          | none =>
            rw [hrh] at ihh
            simp at ihh
          | some z =>
            rw [hrh] at ihh
            simp only [Option.map_some'] at ihh
            injection ihh with ihh'
            injection ihh' with e1 e2
            have hbz : b.precedes z := hrel z (by rw [Option.mem_def, hrh])
            show AllocBlock.nextPointerWith b.pointer b.size ≤ y.pointer
            rw [e1]
            exact hbz

/-- One valid allocator call preserves the invariant and never shrinks the
block list. -/
theorem runOp_wf (blocks l' : List AllocBlock) (op : AllocOp)
    (h : runOp blocks op = .ok l') (hwf : BlocksWf blocks) :
    BlocksWf l' ∧ blocks.length ≤ l'.length := by
  cases op with
  | alloc size align =>
    simp only [runOp, AllocModule.alloc] at h
    cases hnb : AllocModule.newBlock blocks size align with
    | error e =>
      rw [hnb] at h
      cases h
    | ok pr =>
      obtain ⟨pr1, pr2⟩ := pr
      rw [hnb] at h
      simp only [Except.map] at h
      injection h with h'
      subst h'
      obtain ⟨w1, w2, _⟩ := newBlock_wf blocks size align pr1 pr2 hnb hwf
      exact ⟨w1, w2⟩
  | dealloc p sz al =>
    simp only [runOp] at h
    obtain ⟨hl, _, hwf'⟩ := dealloc_wf blocks p sz al l' h
    exact ⟨hwf' hwf, le_of_eq hl.symm⟩

theorem runOps_wf (ops : List AllocOp) :
    ∀ blocks l', runOps blocks ops = .ok l' → BlocksWf blocks →
      BlocksWf l' ∧ blocks.length ≤ l'.length := by
  induction ops with
  | nil =>
    intro blocks l' h hwf
    injection h with h'
    subst h'
    exact ⟨hwf, le_refl _⟩
  | cons op ops ih =>
    intro blocks l' h hwf
    simp only [runOps] at h
    cases hop : runOp blocks op with
    | error e =>
      rw [hop] at h
      cases h
    | ok m =>
      rw [hop] at h
      obtain ⟨w1, w2⟩ := runOp_wf blocks m op hop hwf
      obtain ⟨w3, w4⟩ := ih m l' h w1
      exact ⟨w3, le_trans w2 w4⟩

theorem runOps_append (ops1 ops2 : List AllocOp) :
    ∀ blocks, runOps blocks (ops1 ++ ops2) =
      match runOps blocks ops1 with
      | .error e => .error e
      | .ok l => runOps l ops2 := by
  induction ops1 with
  | nil => intro blocks; rfl
  | cons op ops ih =>
    intro blocks
    simp only [List.cons_append, runOps]
    cases runOp blocks op with
    | error e => rfl
    | ok m => exact ih m

/-- C2: after any sequence of valid `alloc`/`dealloc` calls from the empty
allocator, the block list is ordered by ascending address; extending the
sequence with further valid calls never shrinks the list; `alloc` from the
reached state never returns address 0; and the address ranges of used
blocks are pairwise non-overlapping. -/
theorem C2_alloc_dealloc_invariants (ops : List AllocOp)
    (l : List AllocBlock) (h : runOps [] ops = .ok l) :
    List.Pairwise (fun a b : AllocBlock => a.pointer ≤ b.pointer) l ∧
    (∀ ops2 l2, runOps [] (ops ++ ops2) = .ok l2 → l.length ≤ l2.length) ∧
    (∀ size align l2 q, AllocModule.alloc l size align = .ok (l2, q) →
      q ≠ 0) ∧
    List.Pairwise (fun a b : AllocBlock =>
      a.used = true → b.used = true → ¬ a.overlaps b) l := by
  have hwf0 : BlocksWf ([] : List AllocBlock) := ⟨by simp, by simp⟩
  obtain ⟨⟨hptr, hchain⟩, -⟩ := runOps_wf ops [] l h hwf0
  have hpair : List.Pairwise AllocBlock.precedes l :=
    List.chain'_iff_pairwise.mp hchain
  refine ⟨?_, ?_, ?_, ?_⟩
  · refine hpair.imp ?_
    intro a b hab
    have hab' : a.pointer + a.size ≤ b.pointer := hab
    omega
  · intro ops2 l2 h2
    rw [runOps_append ops ops2 []] at h2
    rw [h] at h2
    exact (runOps_wf ops2 l l2 h2 ⟨hptr, hchain⟩).2
  · intro size align l2 q hq
    simp only [AllocModule.alloc] at hq
    cases hnb : AllocModule.newBlock l size align with
    | error e =>
      rw [hnb] at hq
      cases hq
    | ok pr =>
      obtain ⟨pr1, pr2⟩ := pr
      rw [hnb] at hq
      simp only [Except.map] at hq
      injection hq with hq'
      injection hq' with hq1 hq2
      subst hq2
      obtain ⟨-, -, w4⟩ :=
        newBlock_wf l size align pr1 pr2 hnb ⟨hptr, hchain⟩
      omega
  · refine hpair.imp ?_
    intro a b hab
    intro _ _ hov
    obtain ⟨x, ⟨ha1, ha2⟩, ⟨hb1, hb2⟩⟩ := hov
    have hab' : a.pointer + a.size ≤ b.pointer := hab
    omega

/-- Witness for C2 after `alloc(8,4); alloc(8,4); dealloc(4,8,4)`. -/
theorem C2_alloc_dealloc_invariants_witness :
    List.Pairwise (fun a b : AllocBlock => a.pointer ≤ b.pointer)
      [{ pointer := 4, size := 8, used := false },
       { pointer := 12, size := 8, used := true }] :=
  (C2_alloc_dealloc_invariants
    [AllocOp.alloc 8 4, AllocOp.alloc 8 4, AllocOp.dealloc 4 8 4]
    [{ pointer := 4, size := 8, used := false },
     { pointer := 12, size := 8, used := true }] (by rfl)).1

end WasmAlloc
